import Mathlib

/-!
Shallow embedding of the Prometheus template-variable query resolver
(`PrometheusMetricFindQuery` in
`public/app/features/dashboard/dashgrid/DashboardRow.tsx`): query
classification over the ordered regex rules of `process`, the time-window
parameter builders, and the shape-specific result decoders.

Strings are modelled as Lean `String` / `List Char`; JavaScript objects
whose keys are enumerated in insertion order are modelled as association
lists `List (String × String)`.  The JavaScript regular expressions of the
classifier are embedded as explicit backtracking matchers that follow the
engine's leftmost/greedy semantics for exactly the patterns appearing in
the source.
-/

namespace PromFindQuery

/-- Character class `[a-zA-Z_]` (first character of a label identifier). -/
def isIdentStart (c : Char) : Bool :=
  c.isAlpha || c == '_'

/-- Character class `[a-zA-Z0-9_]` (subsequent characters of a label identifier). -/
def isIdentChar (c : Char) : Bool :=
  c.isAlphanum || c == '_'

/-- JavaScript `\s` restricted to the ASCII whitespace characters
(space, tab, newline, carriage return, vertical tab, form feed); the
Unicode whitespace code points also matched by `\s` play no role in the
queries in scope. -/
def isJsSpace (c : Char) : Bool :=
  c == ' ' || c == '\t' || c == '\n' || c == '\r' || c == '\x0b' || c == '\x0c'

/-- Characters matched by the JavaScript regex `.` (any character except
line terminators). -/
def isDotChar (c : Char) : Bool :=
  !(c == '\n' || c == '\r' || c == '\u2028' || c == '\u2029')

/-- Continuation of `lvIdentParen`: after the maximal identifier run
`ident`, the remainder must be `\)\s*$`. -/
def lvCloseParen (ident rest : List Char) : Option (List Char) :=
  match rest with
  | ')' :: ws => if ws.all isJsSpace then some ident else none
  | _ => none

/-- Matcher for the regex fragment `([a-zA-Z_][a-zA-Z0-9_]*)\)\s*$`:
an identifier capture followed by a closing parenthesis and trailing
whitespace.  Returns the captured identifier. -/
def lvIdentParen (t2 : List Char) : Option (List Char) :=
  match t2 with
  | [] => none
  | d :: _ =>
    if isIdentStart d then
      lvCloseParen (t2.takeWhile isIdentChar) (t2.dropWhile isIdentChar)
    else none

/-- Matcher for the regex fragment `,\s*([a-zA-Z_][a-zA-Z0-9_]*)\)\s*$`
(the tail that must follow the greedy metric capture in
`labelValuesRegex`). -/
def lvTail (t : List Char) : Option (List Char) :=
  match t with
  | [] => none
  | c :: t1 => if c = ',' then lvIdentParen (t1.dropWhile isJsSpace) else none

/-- One backtracking step of `lvBranchA`: the candidate metric capture
`m` succeeds when it is all dot-matchable characters and the mandatory
tail parses after it; otherwise the next (shorter) candidate is tried. -/
def lvStep (m : List Char) (tl : Option (List Char))
    (next : Option (List Char × List Char)) : Option (List Char × List Char) :=
  if m.all isDotChar then
    match tl with
    | some lbl => some (m, lbl)
    | none => next
  else next

/-- Backtracking loop of the greedy optional group `(?:(.+),\s*)?` of
`labelValuesRegex`: try the metric capture `(.+)` at length `k`, `k-1`,
…, `1` (longest first, exactly the engine's greedy order) and parse the
mandatory tail after it.  Returns the metric capture and the label
capture. -/
def lvBranchA : Nat → List Char → Option (List Char × List Char)
  | 0, _ => none
  | (k+1), r => lvStep (r.take (k+1)) (lvTail (r.drop (k+1))) (lvBranchA k r)

/-- Combination of the two alternatives of the optional group: the
greedy branch with the metric capture is preferred; only when it fails
throughout is the group left unmatched. -/
def lvCombine (withMetric : Option (List Char × List Char))
    (without : Option (List Char)) : Option (Option (List Char) × List Char) :=
  match withMetric with
  | some (m, lbl) => some (some m, lbl)
  | none =>
    match without with
    | some lbl => some (none, lbl)
    | none => none

/-- Matcher for
`labelValuesRegex = /^label_values\((?:(.+),\s*)?([a-zA-Z_][a-zA-Z0-9_]*)\)\s*$/`
(DashboardRow.tsx line 123).  Returns `(optional metric capture, label capture)`. -/
def labelValuesMatch (s : List Char) : Option (Option (List Char) × List Char) :=
  if s.take 13 = "label_values(".data then
    lvCombine (lvBranchA (s.drop 13).length (s.drop 13)) (lvIdentParen (s.drop 13))
  else none

/-- Backtracking loop for the greedy capture in patterns of shape
`NAME\((.+)\)\s*$`: try the capture at length `k`, `k-1`, …, `1`
(longest first), each followed by `\)` and trailing whitespace. -/
def argParen : Nat → List Char → Option (List Char)
  | 0, _ => none
  | (k+1), r =>
    let m := r.take (k+1)
    if m.all isDotChar then
      match r.drop (k+1) with
      | ')' :: ws => if ws.all isJsSpace then some m else argParen k r
      | _ => argParen k r
    else argParen k r

/-- Matcher for anchored patterns of shape `^NAME\((.+)\)\s*$` where
`NAME\(` is the literal prefix `pfx`.  Returns the capture. -/
def prefixArgMatch (pfx : List Char) (s : List Char) : Option (List Char) :=
  if s.take pfx.length = pfx then
    let r := s.drop pfx.length
    argParen r.length r
  else none

/-- Modelled from the spec: `PrometheusLabelNamesRegexWithMatch`
(imported from `migrations/variableMigration`, not part of the shown
source) — the `label_names(<matchExpr>)` form of §4.1, i.e. the pattern
`^label_names\((.+)\)\s*$`. -/
def labelNamesWithMatchMatch (s : List Char) : Option (List Char) :=
  prefixArgMatch "label_names(".data s

/-- Modelled from the spec: `PrometheusLabelNamesRegex` (imported from
`migrations/variableMigration`, not part of the shown source) — the bare
`label_names()` form of §4.1, i.e. the pattern `^label_names\(\)\s*$`. -/
def labelNamesBareMatch (s : List Char) : Bool :=
  if s.take 13 = "label_names()".data then (s.drop 13).all isJsSpace else false

/-- Modelled from the spec: `PrometheusMetricNamesRegex` (imported from
`migrations/variableMigration`, not part of the shown source) — the
`metrics(<filterPattern>)` form of §4.1, i.e. `^metrics\((.+)\)\s*$`. -/
def metricNamesMatch (s : List Char) : Option (List Char) :=
  prefixArgMatch "metrics(".data s

/-- Modelled from the spec: `PrometheusQueryResultRegex` (imported from
`migrations/variableMigration`, not part of the shown source) — the
`query_result(<rawQuery>)` form of §4.1, i.e. `^query_result\((.+)\)\s*$`. -/
def queryResultMatch (s : List Char) : Option (List Char) :=
  prefixArgMatch "query_result(".data s

/-- Output of the classification phase of `process`: which of the ordered
rules matched, with its captures (spec §3's `MatchedForm`). -/
inductive MatchedForm where
  | labelNamesMatch (g : String)
  | labelNamesAll
  | labelValues (label : String) (metric : Option String)
  | metricNames (pat : String)
  | queryResult (q : String)
  | freeform (q : String)
  | noMatch
deriving DecidableEq, Repr

/-- The reserved empty forms of `process` (DashboardRow.tsx line 162). -/
def reservedEmptyForms : List String := ["label_values()", "metrics()", "query_result()"]

/-- Classification phase of `PrometheusMetricFindQuery.process`
(DashboardRow.tsx lines 119–167): the regex rules applied in the fixed
source order, first match wins; a query matching no rule is treated as a
freeform series selector unless it is one of the reserved empty forms. -/
def classify (q : String) : MatchedForm :=
  match labelNamesWithMatchMatch q.data with
  | some g => .labelNamesMatch ⟨g⟩
  | none =>
    if labelNamesBareMatch q.data then .labelNamesAll
    else
      match labelValuesMatch q.data with
      | some (some m, lbl) => .labelValues ⟨lbl⟩ (some ⟨m⟩)
      | some (none, lbl) => .labelValues ⟨lbl⟩ none
      | none =>
        match metricNamesMatch q.data with
        | some p => .metricNames ⟨p⟩
        | none =>
          match queryResultMatch q.data with
          | some r => .queryResult ⟨r⟩
          | none => if q ∈ reservedEmptyForms then .noMatch else .freeform q

/-- A dashboard time range; instants carry the JavaScript `valueOf()`
millisecond encoding. -/
structure TimeRange where
  fromMs : Int
  toMs : Int
deriving DecidableEq, Repr

/-- Result item of a metric find query (`MetricFindValue` of
`@grafana/data`): `expandable` is optional in the TypeScript type and
absent means `false`, so it is modelled with default `false`. -/
structure MetricFindValue where
  text : String
  expandable : Bool := false
deriving DecidableEq, Repr

/-- An HTTP metadata request: endpoint path plus query parameters in the
order the source builds them. -/
structure MetadataRequest where
  url : String
  params : List (String × String)
deriving DecidableEq, Repr

/-- One sample of an instant-query `vector` result: its label object (in
insertion order) and its `[timestamp, value]` pair.  Timestamps are
modelled as integer Unix seconds. -/
structure VectorSample where
  metric : List (String × String)
  valueTs : Int
  valueStr : String
deriving DecidableEq, Repr

/-- The `result.data.data` payload of an instant query as read by
`queryResultQuery`: the reported `resultType`, the second element of the
2-tuple payload (as read by the scalar/string branch; `none` models the
JavaScript `undefined`), and the sample list (as read by the vector
branch). -/
structure InstantQueryData where
  resultType : String
  resultSecond : Option String
  vectorResult : List VectorSample
deriving DecidableEq, Repr

/-- The collaborator surface of `PrometheusDatasource` consumed by
`PrometheusMetricFindQuery`: the capability flag, the delegated
capabilities, and the backend's responses to `metadataRequest`, split by
the payload shape each endpoint returns. -/
structure Datasource where
  hasLabelsMatchAPISupport : Bool
  getSeriesLabels : String → List String
  getTagKeys : List MetricFindValue
  stringListResp : MetadataRequest → List String
  seriesResp : MetadataRequest → List (List (String × String))
  instantResp : MetadataRequest → InstantQueryData
  getOriginalMetricName : List (String × String) → String

/-- Modelled from the spec: `getPrometheusTime` (imported from
`language_utils`, not part of the shown source) — §4.2's time window
normalizer: `start` is floored and `end` is ceiled to whole seconds. -/
def getPrometheusTime (ms : Int) (roundUp : Bool) : Int :=
  if roundUp then -((-ms) / 1000) else ms / 1000

/-- JavaScript property read `m[k] || ''`: the value of the first entry
with key `k`, or the empty string when the key is absent (and an empty
string stays empty under `||`). -/
def lookupD (m : List (String × String)) (k : String) : String :=
  match m.find? (fun kv => kv.1 == k) with
  | some kv => kv.2
  | none => ""

/-- `lodash.uniq` with an explicit seen-accumulator: first occurrence of
each element is kept, in order. -/
def uniqAux : List String → List String → List String
  | _, [] => []
  | seen, x :: xs => if x ∈ seen then uniqAux seen xs else x :: uniqAux (x :: seen) xs

/-- `lodash.uniq`: deduplication keeping first-occurrence order. -/
def uniqFirst (l : List String) : List String := uniqAux [] l

/-- Parameter object of `labelValuesQuery` (DashboardRow.tsx line 173):
`match[]` spread in first when a metric is given, then `start` and `end`
as string-encoded integer Unix seconds. -/
def lvParams (range : TimeRange) (metric : Option String) : List (String × String) :=
  (match metric with
    | some m => [("match[]", m)]
    | none => []) ++
  [("start", toString (getPrometheusTime range.fromMs false)),
   ("end", toString (getPrometheusTime range.toMs true))]

/-- `PrometheusMetricFindQuery.labelValuesQuery` (DashboardRow.tsx lines
170–201): fast path via `/api/v1/label/{label}/values` when no metric is
given or the backend supports match-parameterized label listing,
otherwise the `/api/v1/series` fallback with client-side extraction,
empty-value filtering and deduplication. -/
def labelValuesQuery (range : TimeRange) (label : String) (metric : Option String)
    (ds : Datasource) : List MetricFindValue :=
  let params := lvParams range metric
  if metric.isNone || ds.hasLabelsMatchAPISupport then
    (ds.stringListResp ⟨"/api/v1/label/" ++ label ++ "/values", params⟩).map
      (fun value => { text := value })
  else
    let _labels := ((ds.seriesResp ⟨"/api/v1/series", params⟩).map
        (fun m => lookupD m label)).filter (fun lbl => lbl != "")
    (uniqFirst _labels).map (fun v => { text := v, expandable := true })

/-- Parameter object of `metricNameQuery` (DashboardRow.tsx lines
206–209). -/
def metricNameParams (range : TimeRange) : List (String × String) :=
  [("start", toString (getPrometheusTime range.fromMs false)),
   ("end", toString (getPrometheusTime range.toMs true))]

/-- Atom of the modelled JavaScript regular-expression subset: a literal
character or the `.` wildcard. -/
inductive RAtom where
  | lit (c : Char)
  | dot
deriving DecidableEq, Repr

/-- Whether a regex atom matches one character. -/
def atomMatch (a : RAtom) (c : Char) : Bool :=
  match a with
  | .lit d => c == d
  | .dot => isDotChar c

/-- Fueled backtracking matcher for a sequence of possibly-starred atoms
against a prefix of the input (the match need not consume the whole
input, as in `RegExp.prototype.test`).  Every recursive call shrinks
`pattern.length + input.length`, so the fuel supplied by `seqMatch`
below is always sufficient. -/
def seqMatchF : Nat → List (RAtom × Bool) → List Char → Bool
  | 0, _, _ => false
  | _+1, [], _ => true
  | _+1, (_, false) :: _, [] => false
  | f+1, (a, false) :: ps, c :: s => atomMatch a c && seqMatchF f ps s
  | f+1, (_, true) :: ps, [] => seqMatchF f ps []
  | f+1, (a, true) :: ps, c :: s =>
    seqMatchF f ps (c :: s) || (atomMatch a c && seqMatchF f ((a, true) :: ps) s)

/-- Backtracking matcher with adequate fuel. -/
def seqMatch (p : List (RAtom × Bool)) (s : List Char) : Bool :=
  seqMatchF (p.length + s.length + 1) p s

/-- Unanchored search: try the pattern at every start position, left to
right, as `RegExp.prototype.test` does. -/
def searchMatch : List (RAtom × Bool) → List Char → Bool
  | p, [] => seqMatch p []
  | p, c :: s => seqMatch p (c :: s) || searchMatch p s

/-- Characters whose regular-expression meaning lies outside the
modelled subset (quantifiers other than a postfix `*`, groups, classes,
alternation, anchors, escapes). -/
def regexMeta (c : Char) : Bool :=
  c == '*' || c == '+' || c == '?' || c == '(' || c == ')' || c == '[' || c == ']' ||
  c == '\\' || c == '|' || c == '^' || c == '$' || c == '\x7b' || c == '\x7d'

/-- Parser for the modelled regular-expression subset: literal
characters and `.`, each optionally followed by a postfix `*`.  Patterns
using other metacharacters are outside the model and yield `none`. -/
def parseAtoms : List Char → Option (List (RAtom × Bool))
  | [] => some []
  | c :: '*' :: rest2 =>
    if regexMeta c then none
    else (parseAtoms rest2).map (fun ps => ((if c == '.' then RAtom.dot else RAtom.lit c), true) :: ps)
  | c :: rest =>
    if regexMeta c then none
    else (parseAtoms rest).map (fun ps => ((if c == '.' then RAtom.dot else RAtom.lit c), false) :: ps)

/-- Model of the JavaScript platform's `new RegExp(pat).test(s)` for the
subset of patterns covered by `parseAtoms`; patterns outside the subset
are reported as non-matching. -/
def jsRegexTest (pat : String) (s : String) : Bool :=
  match parseAtoms pat.data with
  | some p => searchMatch p s.data
  | none => false

/-- `PrometheusMetricFindQuery.metricNameQuery` (DashboardRow.tsx lines
203–226): fetch all metric names from `/api/v1/label/__name__/values`
and post-filter them client-side with `new RegExp(pattern).test`. -/
def metricNameQuery (range : TimeRange) (metricFilterPattern : String)
    (ds : Datasource) : List MetricFindValue :=
  ((ds.stringListResp ⟨"/api/v1/label/__name__/values", metricNameParams range⟩).filter
      (fun metricName => jsRegexTest metricFilterPattern metricName)).map
    (fun matchedMetricName => { text := matchedMetricName, expandable := true })

/-- One step of the vector branch of `queryResultQuery` (DashboardRow.tsx
lines 244–259).  The JavaScript `delete metricData.metric.__name__`
mutates the backend-supplied sample in place; the mutation is embedded
by explicit state passing: the second component is the sample as left
behind by the decoder. -/
def vectorItem (sample : VectorSample) : MetricFindValue × VectorSample :=
  let name := lookupD sample.metric "__name__"
  let metricRest := sample.metric.filter (fun kv => kv.1 != "__name__")
  let text := name ++ "\x7b" ++
    String.intercalate "," (metricRest.map (fun kv => kv.1 ++ "=\"" ++ kv.2 ++ "\"")) ++
    "\x7d" ++ " " ++ sample.valueStr ++ " " ++ toString (sample.valueTs * 1000)
  ({ text := text, expandable := true }, { sample with metric := metricRest })

/-- Post-state of the backend-supplied sample objects after the vector
branch of `queryResultQuery` ran over them (the effect of the in-place
`delete` on each aliased sample). -/
def vectorMutatedSamples (samples : List VectorSample) : List VectorSample :=
  samples.map (fun s => (vectorItem s).2)

/-- Decoding switch of `PrometheusMetricFindQuery.queryResultQuery`
(DashboardRow.tsx lines 233–263): scalar/string, vector, and the fatal
default arm for any other reported result type. -/
def queryResultDecode (d : InstantQueryData) : Except String (List MetricFindValue) :=
  if d.resultType = "scalar" ∨ d.resultType = "string" then
    .ok [{ text := d.resultSecond.getD "", expandable := false }]
  else if d.resultType = "vector" then
    .ok (d.vectorResult.map (fun s => (vectorItem s).1))
  else
    .error ("Unknown/Unhandled result type: [" ++ d.resultType ++ "]")

/-- `PrometheusMetricFindQuery.queryResultQuery` (DashboardRow.tsx lines
228–264): instant query at `/api/v1/query` with the raw query as sole
parameter, then shape-specific decoding. -/
def queryResultQuery (q : String) (ds : Datasource) : Except String (List MetricFindValue) :=
  queryResultDecode (ds.instantResp ⟨"/api/v1/query", [("query", q)]⟩)

/-- Parameter object of `metricNameAndLabelsQuery` (DashboardRow.tsx
lines 269–273). -/
def seriesParams (range : TimeRange) (query : String) : List (String × String) :=
  [("match[]", query),
   ("start", toString (getPrometheusTime range.fromMs false)),
   ("end", toString (getPrometheusTime range.toMs true))]

/-- `PrometheusMetricFindQuery.metricNameAndLabelsQuery` (DashboardRow.tsx
lines 266–286): freeform series selector resolved via `/api/v1/series`,
each series rendered by the collaborator's display-name formatter. -/
def metricNameAndLabelsQuery (range : TimeRange) (query : String)
    (ds : Datasource) : List MetricFindValue :=
  (ds.seriesResp ⟨"/api/v1/series", seriesParams range query⟩).map
    (fun metric => { text := ds.getOriginalMetricName metric, expandable := true })

/-- `PrometheusMetricFindQuery.process` (DashboardRow.tsx lines 119–168):
classification followed by the per-form dispatch; `.error` is the
rejected promise of the unknown-result-type case, `.ok` carries the
resolved item list (always a list, never null). -/
def process (q : String) (range : TimeRange) (ds : Datasource) :
    Except String (List MetricFindValue) :=
  match classify q with
  | .labelNamesMatch g =>
    .ok ((ds.getSeriesLabels ("\x7b__name__=~\".*" ++ g ++ ".*\"\x7d")).map
      (fun result => { text := result }))
  | .labelNamesAll => .ok ds.getTagKeys
  | .labelValues lbl m => .ok (labelValuesQuery range lbl m ds)
  | .metricNames p => .ok (metricNameQuery range p ds)
  | .queryResult qr => queryResultQuery qr ds
  | .freeform fq => .ok (metricNameAndLabelsQuery range fq ds)
  | .noMatch => .ok []

/-- A neutral datasource used to build the concrete instances below. -/
def dsBase : Datasource where
  hasLabelsMatchAPISupport := true
  getSeriesLabels := fun _ => []
  getTagKeys := []
  stringListResp := fun _ => []
  seriesResp := fun _ => []
  instantResp := fun _ => { resultType := "vector", resultSecond := none, vectorResult := [] }
  getOriginalMetricName := fun _ => ""

/-- Datasource whose label-values endpoint returns two values. -/
def dsA : Datasource :=
  { dsBase with stringListResp := fun _ => ["v1", "v2"] }

/-- Datasource without match-API support whose series endpoint returns
the four series of the spec's deduplication example. -/
def dsB : Datasource :=
  { dsBase with
    hasLabelsMatchAPISupport := false
    seriesResp := fun _ => [[("job", "a")], [("job", "a")], [("job", "b")], [("job", "")]] }

/-- Datasource whose metric-name endpoint returns the two names of the
spec's filtering example. -/
def dsMetrics : Datasource :=
  { dsBase with stringListResp := fun _ => ["foobar", "baz"] }

lemma uniqAux_spec (l : List String) : ∀ seen : List String,
    (uniqAux seen l).Nodup ∧ ∀ x ∈ uniqAux seen l, x ∉ seen := by
  induction l with
  | nil => intro seen; simp [uniqAux]
  | cons x xs ih =>
    intro seen
    by_cases hx : x ∈ seen
    · simpa [uniqAux, hx] using ih seen
    · have h := ih (x :: seen)
      have heq : uniqAux seen (x :: xs) = x :: uniqAux (x :: seen) xs := by
        simp [uniqAux, hx]
      rw [heq]
      constructor
      · refine List.Nodup.cons (fun hmem => ?_) h.1
        exact (h.2 x hmem) (List.mem_cons_self x seen)
      · intro y hy
        rcases List.mem_cons.1 hy with hyx | hy2
        · subst hyx; exact hx
        · intro hys
          exact (h.2 y hy2) (List.mem_cons_of_mem x hys)

lemma uniqFirst_nodup (l : List String) : (uniqFirst l).Nodup :=
  (uniqAux_spec l []).1

lemma map_text_mkExpandable (L : List String) :
    ((L.map (fun v => ({ text := v, expandable := true } : MetricFindValue))).map
      MetricFindValue.text) = L := by
  induction L with
  | nil => rfl
  | cons a l ih => simp [ih]

/-- C2: every instant-query vector sample decodes to the metric name
(empty if absent), the remaining labels as a brace-delimited
comma-separated key="value" list in insertion order, a space, the sample
value, a space, and the second-to-millisecond timestamp; each item is
expandable.  The spec's example sample decodes to
`up\x7binstance="a"\x7d 1 1000000`. -/
theorem instant_vector_decoding (resultSecond : Option String) (samples : List VectorSample) :
    queryResultDecode ⟨"vector", resultSecond, samples⟩ =
      .ok (samples.map (fun s =>
        { text := lookupD s.metric "__name__" ++ "\x7b" ++
            String.intercalate "," ((s.metric.filter (fun kv => kv.1 != "__name__")).map
              (fun kv => kv.1 ++ "=\"" ++ kv.2 ++ "\"")) ++
            "\x7d" ++ " " ++ s.valueStr ++ " " ++ toString (s.valueTs * (1000 : Int)),
          expandable := true })) ∧
    queryResultDecode ⟨"vector", none, [⟨[("__name__", "up"), ("instance", "a")], 1000, "1"⟩]⟩ =
      .ok [{ text := "up\x7binstance=\"a\"\x7d 1 1000000", expandable := true }] := by
  constructor
  · unfold queryResultDecode
    rw [if_neg (by simp), if_pos rfl]
    rfl
  · rfl

/-- C3: an instant-query payload whose resultType is none of scalar,
string, vector decodes to an error whose message carries the offending
type name, and the three handled types always decode to a normal
result. -/
theorem queryResult_unknown_type (d : InstantQueryData) :
    (d.resultType ≠ "scalar" → d.resultType ≠ "string" → d.resultType ≠ "vector" →
      queryResultDecode d = .error ("Unknown/Unhandled result type: [" ++ d.resultType ++ "]") ∧
      ∃ pre suf, ("Unknown/Unhandled result type: [" ++ d.resultType ++ "]") =
        pre ++ d.resultType ++ suf) ∧
    ((d.resultType = "scalar" ∨ d.resultType = "string" ∨ d.resultType = "vector") →
      ∃ items, queryResultDecode d = .ok items) := by
  obtain ⟨rt, rs, vr⟩ := d
  constructor
  · intro h1 h2 h3
    simp only at h1 h2 h3
    refine ⟨?_, "Unknown/Unhandled result type: [", "]", rfl⟩
    unfold queryResultDecode
    rw [if_neg (by simp [h1, h2]), if_neg (by simp [h3])]
  · rintro (h | h | h) <;> simp only at h <;> subst h <;> exact ⟨_, rfl⟩

/-- C3 witness: `matrix` is rejected with an error naming `matrix`;
`scalar` decodes normally. -/
theorem queryResult_unknown_type_witness :
    queryResultDecode ⟨"matrix", none, []⟩ = .error "Unknown/Unhandled result type: [matrix]" ∧
    ∃ items, queryResultDecode ⟨"scalar", some "42", []⟩ = .ok items := by
  constructor
  · rw [((queryResult_unknown_type ⟨"matrix", none, []⟩).1 (by decide) (by decide) (by decide)).1]
    rfl
  · exact (queryResult_unknown_type ⟨"scalar", some "42", []⟩).2 (Or.inl rfl)

/-- C4: every request-parameter object carrying a time window uses
`start` = range.from floored to the previous whole second and `end` =
range.to ceiled to the next whole second, string-encoded; e.g.
from = 10.9s, to = 11.1s gives (10, 12). -/
theorem time_window_normalization (range : TimeRange) (metric : Option String) (q : String) :
    (1000 * getPrometheusTime range.fromMs false ≤ range.fromMs ∧
      range.fromMs < 1000 * (getPrometheusTime range.fromMs false + 1)) ∧
    (range.toMs ≤ 1000 * getPrometheusTime range.toMs true ∧
      1000 * (getPrometheusTime range.toMs true - 1) < range.toMs) ∧
    ("start", toString (getPrometheusTime range.fromMs false)) ∈ lvParams range metric ∧
    ("end", toString (getPrometheusTime range.toMs true)) ∈ lvParams range metric ∧
    metricNameParams range = [("start", toString (getPrometheusTime range.fromMs false)),
      ("end", toString (getPrometheusTime range.toMs true))] ∧
    seriesParams range q = [("match[]", q),
      ("start", toString (getPrometheusTime range.fromMs false)),
      ("end", toString (getPrometheusTime range.toMs true))] ∧
    getPrometheusTime 10900 false = 10 ∧ getPrometheusTime 11100 true = 12 := by
  refine ⟨⟨?_, ?_⟩, ⟨?_, ?_⟩, ?_, ?_, rfl, rfl, by decide, by decide⟩
  · simp [getPrometheusTime]; omega
  · simp [getPrometheusTime]; omega
  · simp [getPrometheusTime]; omega
  · simp [getPrometheusTime]; omega
  · rcases metric with _ | m <;> simp [lvParams]
  · rcases metric with _ | m <;> simp [lvParams]

/-- C5: when no metric is given or the backend supports
match-parameterized label listing, label values are fetched from
`/api/v1/label/\x7blabel\x7d/values` and every returned string becomes an
item with that text and expandable false. -/
theorem labelValues_fast_path (range : TimeRange) (label : String) (metric : Option String)
    (ds : Datasource) (h : metric = none ∨ ds.hasLabelsMatchAPISupport = true) :
    labelValuesQuery range label metric ds =
      (ds.stringListResp ⟨"/api/v1/label/" ++ label ++ "/values", lvParams range metric⟩).map
        (fun value => { text := value, expandable := false }) := by
  have hc : (metric.isNone || ds.hasLabelsMatchAPISupport) = true := by
    rcases h with h | h <;> simp [h]
  simp only [labelValuesQuery]
  rw [if_pos hc]

/-- C5 witness: the fast path applied to a concrete datasource. -/
theorem labelValues_fast_path_witness :
    labelValuesQuery ⟨0, 0⟩ "job" none dsA = [{ text := "v1" }, { text := "v2" }] := by
  rw [labelValues_fast_path ⟨0, 0⟩ "job" none dsA (Or.inl rfl)]
  rfl

/-- C6: with a metric and no match-API support, label values are derived
from `/api/v1/series`: the label's value extracted from each series,
empty values dropped, first-occurrence deduplication, each survivor
expandable; the output texts are duplicate-free. -/
theorem labelValues_series_fallback (range : TimeRange) (label : String) (m : String)
    (ds : Datasource) (h : ds.hasLabelsMatchAPISupport = false) :
    labelValuesQuery range label (some m) ds =
      (uniqFirst (((ds.seriesResp ⟨"/api/v1/series", lvParams range (some m)⟩).map
          (fun sr => lookupD sr label)).filter (fun v => v != ""))).map
        (fun v => { text := v, expandable := true }) ∧
    ((labelValuesQuery range label (some m) ds).map MetricFindValue.text).Nodup := by
  have hA : labelValuesQuery range label (some m) ds =
      (uniqFirst (((ds.seriesResp ⟨"/api/v1/series", lvParams range (some m)⟩).map
          (fun sr => lookupD sr label)).filter (fun v => v != ""))).map
        (fun v => { text := v, expandable := true }) := by
    simp only [labelValuesQuery]
    rw [if_neg (by simp [h])]
  refine ⟨hA, ?_⟩
  rw [hA, map_text_mkExpandable]
  exact uniqFirst_nodup _

/-- C6 witness: the spec's deduplication example, series
`[\x7bjob:a\x7d, \x7bjob:a\x7d, \x7bjob:b\x7d, \x7bjob:""\x7d]` yields exactly
`a` then `b`, both expandable. -/
theorem labelValues_series_fallback_witness :
    labelValuesQuery ⟨0, 0⟩ "job" (some "metric") dsB =
      [{ text := "a", expandable := true }, { text := "b", expandable := true }] := by
  rw [(labelValues_series_fallback ⟨0, 0⟩ "job" "metric" dsB rfl).1]
  rfl

/-- C7: metric names are filtered client-side with RegExp test semantics,
keeping backend order, each match becoming an expandable item; pattern
`foo.*` keeps `foobar` (also as an inner substring) and drops `baz`. -/
theorem metricName_filtering (range : TimeRange) (pat : String) (ds : Datasource) :
    metricNameQuery range pat ds =
      ((ds.stringListResp ⟨"/api/v1/label/__name__/values", metricNameParams range⟩).filter
        (fun n => jsRegexTest pat n)).map (fun n => { text := n, expandable := true }) ∧
    (∀ names : List String,
      List.Sublist (names.filter (fun n => jsRegexTest pat n)) names) ∧
    jsRegexTest "foo.*" "foobar" = true ∧
    jsRegexTest "foo.*" "baz" = false ∧
    jsRegexTest "foo.*" "xx_foobar_yy" = true ∧
    metricNameQuery ⟨0, 0⟩ "foo.*" dsMetrics = [{ text := "foobar", expandable := true }] := by
  exact ⟨rfl, fun names => List.filter_sublist names, by decide, by decide, by decide, by rfl⟩

/-- C8: the three reserved empty forms match no classifier rule and
resolve to the empty item list, not an error. -/
theorem reserved_empty_forms_resolve_empty (range : TimeRange) (ds : Datasource) :
    process "label_values()" range ds = .ok [] ∧
    process "metrics()" range ds = .ok [] ∧
    process "query_result()" range ds = .ok [] ∧
    classify "label_values()" = .noMatch ∧
    classify "metrics()" = .noMatch ∧
    classify "query_result()" = .noMatch := by
  refine ⟨?_, ?_, ?_, by decide, by decide, by decide⟩
  · simp only [process, (by decide : classify "label_values()" = MatchedForm.noMatch)]
  · simp only [process, (by decide : classify "metrics()" = MatchedForm.noMatch)]
  · simp only [process, (by decide : classify "query_result()" = MatchedForm.noMatch)]

/-- C9: the vector decoder's `delete metricData.metric.__name__` acts on
the backend-supplied samples themselves: after decoding, every sample's
label object has its `__name__` entry removed (and nothing else), so a
sample that carried `__name__` is actually changed. -/
theorem vector_decoding_mutates_samples (samples : List VectorSample) :
    vectorMutatedSamples samples =
      samples.map (fun s => { s with metric := s.metric.filter (fun kv => kv.1 != "__name__") }) ∧
    (∀ s ∈ vectorMutatedSamples samples,
      s.metric.find? (fun kv => kv.1 == "__name__") = none) ∧
    vectorMutatedSamples [⟨[("__name__", "up"), ("instance", "a")], 1000, "1"⟩] =
      [⟨[("instance", "a")], 1000, "1"⟩] ∧
    vectorMutatedSamples [⟨[("__name__", "up"), ("instance", "a")], 1000, "1"⟩] ≠
      [⟨[("__name__", "up"), ("instance", "a")], 1000, "1"⟩] := by
  refine ⟨rfl, ?_, by rfl, by decide⟩
  intro s hs
  simp only [vectorMutatedSamples, List.mem_map] at hs
  obtain ⟨t, _, rfl⟩ := hs
  apply List.find?_eq_none.2
  intro kv hkv
  have h2 := (List.mem_filter.1 hkv).2
  simp only [bne_iff_ne, ne_eq] at h2
  simpa using h2

/-- C10: a multi-argument `label_values` list is not rejected: the greedy
metric capture takes everything before the last comma-plus-identifier,
and that whole string is the `match[]` parameter value. -/
theorem multiArg_labelValues_matches (range : TimeRange) :
    classify "label_values(a, b, c)" = .labelValues "c" (some "a, b") ∧
    ("match[]", "a, b") ∈ lvParams range (some "a, b") ∧
    (lvParams range (some "a, b")).head? = some ("match[]", "a, b") := by
  refine ⟨by decide, ?_, ?_⟩ <;> simp [lvParams]

lemma identChar_ne_comma {c : Char} (h : isIdentChar c = true) : c ≠ ',' := by
  rintro rfl
  exact absurd h (by decide)

lemma identChar_not_space {c : Char} (h : isIdentChar c = true) : isJsSpace c = false := by
  by_contra hs
  rw [Bool.not_eq_false] at hs
  simp only [isJsSpace, Bool.or_eq_true, beq_iff_eq] at hs
  rcases hs with ((((rfl | rfl) | rfl) | rfl) | rfl) | rfl <;> exact absurd h (by decide)

lemma lvTail_not_comma {c : Char} (t : List Char) (h : c ≠ ',') : lvTail (c :: t) = none := by
  simp [lvTail, h]

lemma lvBranchA_none_of_no_comma (r : List Char) (h : ∀ c ∈ r, c ≠ ',') :
    ∀ k, lvBranchA k r = none := by
  intro k
  induction k with
  | zero => rfl
  | succ k ih =>
    have ht : lvTail (r.drop (k + 1)) = none := by
      cases hd : r.drop (k + 1) with
      | nil => rfl
      | cons c t =>
        have hc : c ∈ r := by
          have hmem : c ∈ r.drop (k + 1) := by rw [hd]; exact List.mem_cons_self c t
          exact List.drop_subset _ _ hmem
        exact lvTail_not_comma t (h c hc)
    simp only [lvBranchA]
    rw [ht]
    simp [lvStep, ih]

lemma lvIdentParen_spec (c : Char) (cs ws : List Char)
    (h2 : ∀ x ∈ c :: cs, isIdentChar x = true)
    (h3 : isIdentStart c = true)
    (hws : ws.all isJsSpace = true) :
    lvIdentParen (c :: (cs ++ ')' :: ws)) = some (c :: cs) := by
  have hrp : ¬ (isIdentChar ')' = true) := by decide
  have hdw : (c :: (cs ++ ')' :: ws)).dropWhile isIdentChar = ')' :: ws := by
    rw [← List.cons_append, List.dropWhile_append_of_pos h2, List.dropWhile_cons_of_neg hrp]
  have htw : (c :: (cs ++ ')' :: ws)).takeWhile isIdentChar = c :: cs := by
    rw [← List.cons_append, List.takeWhile_append_of_pos h2,
      List.takeWhile_cons_of_neg hrp, List.append_nil]
  simp only [lvIdentParen]
  rw [if_pos h3, htw, hdw]
  simp [lvCloseParen, hws]

lemma lvBranchA_exact (metricL T lbl : List Char)
    (hm1 : metricL ≠ []) (hm2 : metricL.all isDotChar = true)
    (ht : lvTail T = some lbl) :
    lvBranchA metricL.length (metricL ++ T) = some (metricL, lbl) := by
  cases metricL with
  | nil => exact absurd rfl hm1
  | cons c cs =>
    have h1 : ((c :: cs) ++ T).take (cs.length + 1) = c :: cs := List.take_left' (by simp)
    have hD : ((c :: cs) ++ T).drop (cs.length + 1) = T := List.drop_left' (by simp)
    simp only [List.length_cons, lvBranchA]
    rw [h1, hD, ht]
    simp [lvStep, hm2]

lemma lvBranchA_stable (r : List Char) (n : Nat) (p : List Char × List Char)
    (hbase : lvBranchA n r = some p)
    (hfail : ∀ k, n ≤ k → lvTail (r.drop (k + 1)) = none) :
    ∀ j, lvBranchA (n + j) r = some p := by
  intro j
  induction j with
  | zero => simpa using hbase
  | succ j ih =>
    have hf := hfail (n + j) (Nat.le_add_right n j)
    have hnj : n + (j + 1) = (n + j) + 1 := rfl
    rw [hnj]
    simp only [lvBranchA]
    rw [hf]
    simp [lvStep, ih]

lemma labelValuesMatch_noMetric (c : Char) (cs : List Char)
    (h2 : ∀ x ∈ c :: cs, isIdentChar x = true)
    (h3 : isIdentStart c = true) :
    labelValuesMatch ("label_values(".data ++ (c :: (cs ++ [')']))) =
      some (none, c :: cs) := by
  have hpfx : ("label_values(".data ++ (c :: (cs ++ [')']))).take 13 = "label_values(".data :=
    List.take_left' (by decide)
  have hdrop : ("label_values(".data ++ (c :: (cs ++ [')']))).drop 13 = c :: (cs ++ [')']) :=
    List.drop_left' (by decide)
  have hnc : ∀ x ∈ c :: (cs ++ [')']), x ≠ ',' := by
    intro x hx
    rcases List.mem_cons.1 hx with hx1 | hx2
    · subst hx1
      exact identChar_ne_comma (h2 _ (List.mem_cons_self _ _))
    · rcases List.mem_append.1 hx2 with hx3 | hx3
      · exact identChar_ne_comma (h2 x (List.mem_cons_of_mem c hx3))
      · simp at hx3; subst hx3; decide
  have hA : ∀ k, lvBranchA k (c :: (cs ++ [')'])) = none := lvBranchA_none_of_no_comma _ hnc
  have hB : lvIdentParen (c :: (cs ++ [')'])) = some (c :: cs) :=
    lvIdentParen_spec c cs [] h2 h3 rfl
  unfold labelValuesMatch
  rw [hpfx, if_pos rfl, hdrop, hA, hB]
  rfl

lemma labelValuesMatch_withMetric (metricL : List Char) (c : Char) (cs : List Char)
    (hm1 : metricL ≠ []) (hm2 : metricL.all isDotChar = true)
    (h2 : ∀ x ∈ c :: cs, isIdentChar x = true)
    (h3 : isIdentStart c = true) :
    labelValuesMatch
        ("label_values(".data ++ (metricL ++ ',' :: ' ' :: c :: (cs ++ [')']))) =
      some (some metricL, c :: cs) := by
  set r := metricL ++ ',' :: ' ' :: c :: (cs ++ [')']) with hr
  have hpfx : ("label_values(".data ++ r).take 13 = "label_values(".data :=
    List.take_left' (by decide)
  have hdrop : ("label_values(".data ++ r).drop 13 = r := List.drop_left' (by decide)
  have hcsp : isJsSpace c = false := identChar_not_space (h2 c (List.mem_cons_self c cs))
  have htail : lvTail (',' :: ' ' :: c :: (cs ++ [')'])) = some (c :: cs) := by
    have hsp : (' ' :: c :: (cs ++ [')'])).dropWhile isJsSpace = c :: (cs ++ [')']) := by
      rw [List.dropWhile_cons_of_pos (by decide), List.dropWhile_cons_of_neg (by simp [hcsp])]
    have hB : lvIdentParen (c :: (cs ++ [')'])) = some (c :: cs) :=
      lvIdentParen_spec c cs [] h2 h3 rfl
    simp only [lvTail]
    rw [hsp, hB]
    simp
  have hbase : lvBranchA metricL.length r = some (metricL, c :: cs) :=
    lvBranchA_exact metricL _ _ hm1 hm2 htail
  have hfail : ∀ k, metricL.length ≤ k → lvTail (r.drop (k + 1)) = none := by
    intro k hk
    have hsplit : r.drop (k + 1) = (' ' :: c :: (cs ++ [')'])).drop (k - metricL.length) := by
      have h1 : k + 1 = metricL.length + (k + 1 - metricL.length) := by omega
      rw [hr, h1, List.drop_append]
      have hsub : k + 1 - metricL.length = (k - metricL.length) + 1 := by omega
      rw [hsub, List.drop_succ_cons]
    rw [hsplit]
    cases hd : (' ' :: c :: (cs ++ [')'])).drop (k - metricL.length) with
    | nil => rfl
    | cons x t =>
      have hx : x ∈ ' ' :: c :: (cs ++ [')']) := by
        have hmem : x ∈ (' ' :: c :: (cs ++ [')'])).drop (k - metricL.length) := by
          rw [hd]; exact List.mem_cons_self x t
        exact List.drop_subset _ _ hmem
      have hxne : x ≠ ',' := by
        rcases List.mem_cons.1 hx with hx1 | hx2
        · subst hx1; decide
        · rcases List.mem_cons.1 hx2 with hx1 | hx3
          · subst hx1
            exact identChar_ne_comma (h2 _ (List.mem_cons_self _ _))
          · rcases List.mem_append.1 hx3 with hx4 | hx4
            · exact identChar_ne_comma (h2 x (List.mem_cons_of_mem c hx4))
            · simp at hx4; subst hx4; decide
      exact lvTail_not_comma t hxne
  have hrlen : r.length = metricL.length + (cs.length + 4) := by
    simp [hr, List.length_append, List.length_cons]
  have hall : lvBranchA r.length r = some (metricL, c :: cs) := by
    rw [hrlen]
    exact lvBranchA_stable r metricL.length _ hbase hfail (cs.length + 4)
  unfold labelValuesMatch
  rw [hpfx, if_pos rfl, hdrop, hall]
  rfl

lemma labelNames_skip (rest : List Char) :
    labelNamesWithMatchMatch ("label_values(".data ++ rest) = none ∧
    labelNamesBareMatch ("label_values(".data ++ rest) = false := by
  constructor
  · have hcond : ¬ (("label_values(".data ++ rest).take ("label_names(".data).length =
        "label_names(".data) := by
      intro hcon
      rw [(by decide : ("label_names(".data).length = 12),
        List.take_append_of_le_length (by decide)] at hcon
      exact absurd hcon (by decide)
    simp [labelNamesWithMatchMatch, prefixArgMatch, hcond]
  · have hcond : ¬ (("label_values(".data ++ rest).take 13 = "label_names()".data) := by
      intro hcon
      rw [List.take_left' (by decide)] at hcon
      exact absurd hcon (by decide)
    simp [labelNamesBareMatch, hcond]

/-- C1: every `label_values(<label>)` with an identifier label classifies
as LabelValues with that label and no metric; every
`label_values(<metric>, <label>)` classifies as LabelValues with that
label and that metric; and the earlier label_names rules do not match
such queries (first matching rule in the fixed order wins). -/
theorem labelValues_classification (label metric : String)
    (hl1 : label.data ≠ [])
    (hl2 : ∀ c ∈ label.data, isIdentChar c = true)
    (hl3 : isIdentStart (label.data.headD '0') = true)
    (hm1 : metric.data ≠ [])
    (hm2 : metric.data.all isDotChar = true) :
    classify ("label_values(" ++ label ++ ")") = .labelValues label none ∧
    classify ("label_values(" ++ metric ++ ", " ++ label ++ ")") =
      .labelValues label (some metric) ∧
    labelNamesWithMatchMatch ("label_values(" ++ label ++ ")").data = none ∧
    labelNamesBareMatch ("label_values(" ++ label ++ ")").data = false := by
  obtain ⟨c, cs, hlbl⟩ : ∃ c cs, label.data = c :: cs := by
    cases hld : label.data with
    | nil => exact absurd hld hl1
    | cons c cs => exact ⟨c, cs, rfl⟩
  have hd1 : ("label_values(" ++ label ++ ")").data =
      "label_values(".data ++ (c :: (cs ++ [')'])) := by
    simp [String.data_append, hlbl]
  have hd2 : ("label_values(" ++ metric ++ ", " ++ label ++ ")").data =
      "label_values(".data ++ (metric.data ++ ',' :: ' ' :: c :: (cs ++ [')'])) := by
    simp [String.data_append, hlbl]
  have h3 : isIdentStart c = true := by rw [hlbl] at hl3; simpa using hl3
  have h2 : ∀ x ∈ c :: cs, isIdentChar x = true := by rw [hlbl] at hl2; exact hl2
  have hA := labelValuesMatch_noMetric c cs h2 h3
  have hB := labelValuesMatch_withMetric metric.data c cs hm1 hm2 h2 h3
  have hskip1 := labelNames_skip (c :: (cs ++ [')']))
  have hskip2 := labelNames_skip (metric.data ++ ',' :: ' ' :: c :: (cs ++ [')']))
  have hmk : (⟨c :: cs⟩ : String) = label := by
    rw [← hlbl]
  refine ⟨?_, ?_, ?_, ?_⟩
  · simp only [classify, hd1, hskip1.1, hskip1.2, hA, hmk, Bool.false_eq_true, if_false]
  · simp only [classify, hd2, hskip2.1, hskip2.2, hB, hmk, Bool.false_eq_true, if_false]
  · rw [hd1]
    exact hskip1.1
  · rw [hd1]
    exact hskip1.2

/-- C1 witness: the spec's two concrete examples. -/
theorem labelValues_classification_witness :
    classify "label_values(up)" = .labelValues "up" none ∧
    classify "label_values(my_metric, job)" = .labelValues "job" (some "my_metric") := by
  have h1 := labelValues_classification "up" "x"
    (by decide) (by decide) (by decide) (by decide) (by decide)
  have h2 := labelValues_classification "job" "my_metric"
    (by decide) (by decide) (by decide) (by decide) (by decide)
  exact ⟨h1.1, h2.2.1⟩

end PromFindQuery
